import Mathlib

/-!
Shallow embedding of `src/main.py` (a self-improving generate–check–refine
loop around an LLM inference endpoint), together with theorems checking the
natural-language specification against it.

External network calls are modelled as oracle functions supplied to the
loop: `gen i prompt` is the text produced by the task-LLM call of iteration
`i`, and `rew i prompt response checks` is the text produced by the
prompt-rewrite call of iteration `i`.  Indexing the oracles by the
iteration number models the nondeterminism of the remote service (two calls
with the same arguments may return different text).

Python strings are Lean `String`s (lists of characters); Python's
`pat in s` substring test is embedded as `strContains s pat`, and
`s.lower()` as `lowerStr` (per-character ASCII lowercasing, which is what
`Char.toLower` provides and what every string in the rubric exercises).
A Python function that can raise is embedded with an `Option` result,
`none` standing for an uncaught exception.
-/

namespace SelfImprove

/-- Python `a == b` on characters. -/
def chEq (a b : Char) : Bool := a == b

/-- Does `pat` occur at the very start of `l`?  (Helper for the embedding of
Python's substring test `pat in s`.) -/
def leadsWith : List Char → List Char → Bool
  | [], _ => true
  | _ :: _, [] => false
  | a :: as, b :: bs => chEq a b && leadsWith as bs

/-- Does `pat` occur contiguously anywhere in `l`?  This is Python's
`pat in s` on the underlying character lists. -/
def occursIn (pat : List Char) : List Char → Bool
  | [] => pat.isEmpty
  | b :: bs => leadsWith pat (b :: bs) || occursIn pat bs

/-- Embedding of Python's `pat in s` for strings. -/
def strContains (s pat : String) : Bool := occursIn pat.data s.data

/-- Embedding of Python's `s.lower()`: lowercase every character. -/
def lowerStr (s : String) : String := ⟨s.data.map Char.toLower⟩

/-- Embedding of Python's `s.upper()`: uppercase every character (used to
state case-insensitivity of the quality checker). -/
def upperStr (s : String) : String := ⟨s.data.map Char.toUpper⟩

/-- Embedding of Python's `s.strip()`. -/
def stripStr (s : String) : String := s.trim

/-- Python dicts with string keys and boolean values, in insertion order
(`quality_check` builds its `checks` dict in a fixed order). -/
abbrev Checks := List (String × Bool)

/-- `REQUIRED_SECTIONS` from `src/main.py` (the four rubric item names). -/
def REQUIRED_SECTIONS : List String :=
  ["Top 3 trends", "Competitor analysis", "Actionable insight", "Sources"]

/-- `quality_check` from `src/main.py`:
lowercase the response, test each rubric item by substring search, and
report overall success as the conjunction of all item results. -/
def quality_check (response : String) : Bool × Checks :=
  let lower := lowerStr response
  let checks : Checks :=
    [("Top 3 trends", strContains lower "top 3 trends" || strContains lower "top 3"),
     ("Competitor analysis", strContains lower "competitor analysis" || strContains lower "competitor"),
     ("Actionable insight", strContains lower "actionable insight" || strContains lower "actionable"),
     ("Sources", strContains lower "source" || strContains lower "sources")]
  let success := checks.all (fun kv => kv.2)
  (success, checks)

/-- `MAX_ITERS` from `src/main.py`. -/
def MAX_ITERS : Nat := 4

/-- The dictionary returned by `self_improving_loop`:
`{"response": ..., "iterations": ..., "checks": ...}`. -/
structure Outcome where
  response : String
  iterations : Nat
  checks : Checks
deriving Repr, DecidableEq

/-- One external network call made by the loop, with its arguments:
`genCall i prompt` is the task-LLM call of iteration `i`;
`rewriteCall i prompt response checks` is the meta-LLM rewrite call of
iteration `i`. -/
inductive CallEvent where
  | genCall (i : Nat) (prompt : String)
  | rewriteCall (i : Nat) (prompt response : String) (checks : Checks)
deriving Repr, DecidableEq

/-- Is the event a task-LLM generation call? -/
def CallEvent.isGen : CallEvent → Bool
  | .genCall _ _ => true
  | .rewriteCall _ _ _ _ => false

/-- Is the event a meta-LLM rewrite call? -/
def CallEvent.isRew : CallEvent → Bool
  | .genCall _ _ => false
  | .rewriteCall _ _ _ _ => true

/-- Number of generation calls in a trace. -/
def countGen (tr : List CallEvent) : Nat := tr.countP CallEvent.isGen

/-- Number of rewrite calls in a trace. -/
def countRew (tr : List CallEvent) : Nat := tr.countP CallEvent.isRew

/-- Oracle for `task_llm_call_gradient`: iteration number and prompt to
generated text. -/
abbrev GenOracle := Nat → String → String

/-- Oracle for `meta_rewrite_prompt_gradient`: iteration number, current
prompt, response and checks to the rewritten prompt. -/
abbrev RewOracle := Nat → String → String → Checks → String

/-- The body of the `for i in range(1, max_iters + 1)` loop of
`self_improving_loop`, by recursion on the number of remaining iterations
(`fuel`); `i` is the Python loop counter, `last_response` the variable of
the same name, and `lastChecks` the value of the local variable `checks`
(`none` while it is still unassigned).  The result pairs the returned
dictionary (`none` models the `UnboundLocalError` raised when the final
`return` reads `checks` and the loop body never ran) with the trace of
external calls made. -/
def loopAux (gen : GenOracle) (rew : RewOracle) (max_iters : Nat) :
    Nat → Nat → String → String → Option Checks → Option Outcome × List CallEvent
  | 0, _, _, last_response, lastChecks =>
      match lastChecks with
      | some checks => (some ⟨last_response, max_iters, checks⟩, [])
      | none => (none, [])
  | fuel + 1, i, prompt, _, _ =>
      let response := gen i prompt
      let ok := (quality_check response).1
      let checks := (quality_check response).2
      if ok then
        (some ⟨response, i, checks⟩, [CallEvent.genCall i prompt])
      else
        let improved := rew i prompt response checks
        let r := loopAux gen rew max_iters fuel (i + 1) improved response (some checks)
        (r.1, CallEvent.genCall i prompt :: CallEvent.rewriteCall i prompt response checks :: r.2)

/-- `self_improving_loop` from `src/main.py`, parameterised by the two
call oracles.  Starts with the caller's prompt, `last_response = ""`, the
local `checks` unassigned, and the Python counter `i = 1`. -/
def self_improving_loop (gen : GenOracle) (rew : RewOracle)
    (initial_prompt : String) (max_iters : Nat := MAX_ITERS) :
    Option Outcome × List CallEvent :=
  loopAux gen rew max_iters max_iters 1 initial_prompt "" none

/-! ### The iteration sequences

For fixed oracles and initial prompt, `promptAt k` / `respAt k` /
`checksAt k` / `okAt k` are the prompt sent, the response received and the
evaluator's verdict at (1-based) iteration `k`, under the convention that
the prompt of iteration `k + 1` is obtained by the rewrite call of
iteration `k` (the loop only consults these values up to its first
successful iteration). -/

/-- Prompt sent to the task LLM at iteration `k ≥ 1` (`promptAt 0` is a
dummy equal to the initial prompt). -/
def promptAt (gen : GenOracle) (rew : RewOracle) (p : String) : Nat → String
  | 0 => p
  | k + 1 =>
    if k = 0 then p
    else
      let pr := promptAt gen rew p k
      let resp := gen k pr
      rew k pr resp (quality_check resp).2

/-- Response received from the task LLM at iteration `k`. -/
def respAt (gen : GenOracle) (rew : RewOracle) (p : String) (k : Nat) : String :=
  gen k (promptAt gen rew p k)

/-- Checks dictionary computed by the evaluator at iteration `k`. -/
def checksAt (gen : GenOracle) (rew : RewOracle) (p : String) (k : Nat) : Checks :=
  (quality_check (respAt gen rew p k)).2

/-- Overall verdict of the evaluator at iteration `k`. -/
def okAt (gen : GenOracle) (rew : RewOracle) (p : String) (k : Nat) : Bool :=
  (quality_check (respAt gen rew p k)).1

/-! ### Response-shape model for the extraction fallbacks

`task_llm_call_gradient` and `meta_rewrite_prompt_gradient` receive a
response object of unknown shape from the SDK and extract text from it.
`Choice` models the first element of `resp.choices`: `message_content` is
`some s` when `c.message.content` exists and holds `s`, `text` is `some s`
when the attribute `c.text` exists. `RawResp.choices` is `none` when the
object lacks a `choices` attribute, and `str_repr` is Python's
`str(resp)` (nonempty for every Python object). -/

structure Choice where
  message_content : Option String
  text : Option String
deriving Repr, DecidableEq

structure RawResp where
  choices : Option (List Choice)
  str_repr : String
deriving Repr, DecidableEq

/-- The extraction logic of `task_llm_call_gradient` (lines 55–64 of
`src/main.py`): try `resp.choices[0].message.content`; on failure re-probe
for `message.content`, then `text`, then fall back to `str(resp)`. -/
def task_extract (resp : RawResp) : String :=
  match resp.choices with
  | some (c :: _) =>
      match c.message_content with
      | some s => s
      | none =>
          match c.text with
          | some t => t
          | none => resp.str_repr
  | _ => resp.str_repr

/-- The extraction logic of `meta_rewrite_prompt_gradient` (lines 97–101 of
`src/main.py`): try `resp.choices[0].message.content.strip()`; on any
failure fall back to `str(resp).strip()`. -/
def meta_extract (resp : RawResp) : String :=
  match resp.choices with
  | some (c :: _) =>
      match c.message_content with
      | some s => stripStr s
      | none => stripStr resp.str_repr
  | _ => stripStr resp.str_repr

end SelfImprove

namespace SelfImprove

/-! ### Substring lemmas -/

theorem leadsWith_iff : ∀ (p l : List Char), leadsWith p l = true ↔ ∃ r, p ++ r = l
  | [], l => by simp [leadsWith]
  | a :: as, [] => by simp [leadsWith]
  | a :: as, b :: bs => by
    simp only [leadsWith, chEq, Bool.and_eq_true, beq_iff_eq, leadsWith_iff as bs,
      List.cons_append, List.cons.injEq]
    exact exists_and_left.symm

theorem occursIn_iff : ∀ (p l : List Char), occursIn p l = true ↔ ∃ s t, s ++ (p ++ t) = l
  | p, [] => by
    simp [occursIn, List.isEmpty_iff, List.append_eq_nil]
  | p, b :: bs => by
    simp only [occursIn, Bool.or_eq_true, leadsWith_iff, occursIn_iff p bs]
    constructor
    · rintro (⟨r, hr⟩ | ⟨s, t, ht⟩)
      · exact ⟨[], r, hr⟩
      · exact ⟨b :: s, t, by rw [List.cons_append, ht]⟩
    · rintro ⟨s, t, h⟩
      cases s with
      | nil => exact Or.inl ⟨t, h⟩
      | cons x s' =>
        rw [List.cons_append] at h
        obtain ⟨rfl, h2⟩ := List.cons.injEq .. ▸ h
        exact Or.inr ⟨s', t, h2⟩

theorem occursIn_trans {a b l : List Char} (h1 : occursIn a b = true)
    (h2 : occursIn b l = true) : occursIn a l = true := by
  rw [occursIn_iff] at h1 h2 ⊢
  obtain ⟨s1, t1, rfl⟩ := h1
  obtain ⟨s2, t2, rfl⟩ := h2
  exact ⟨s2 ++ s1, t1 ++ t2, by simp⟩

theorem strContains_trans {l b a : String} (h1 : occursIn a.data b.data = true)
    (h2 : strContains l b = true) : strContains l a = true :=
  occursIn_trans h1 h2

end SelfImprove

namespace SelfImprove

/-! ### Case-folding lemmas -/

theorem toUpper_eq_self (c : Char) (h : ¬(c.toNat ≥ 97 ∧ c.toNat ≤ 122)) :
    c.toUpper = c := by
  simp only [Char.toUpper]
  split
  · next hc => exact absurd hc h
  · rfl

theorem toLower_eq_self (c : Char) (h : ¬(c.toNat ≥ 65 ∧ c.toNat ≤ 90)) :
    c.toLower = c := by
  simp only [Char.toLower]
  split
  · next hc => exact absurd hc h
  · rfl

theorem toLower_toUpper_eq (c : Char) : c.toUpper.toLower = c.toLower := by
  by_cases h : c.toNat ≥ 97 ∧ c.toNat ≤ 122
  · obtain ⟨h1, h2⟩ := h
    rw [← Char.ofNat_toNat c]
    generalize hg : c.toNat = n
    rw [hg] at h1 h2
    interval_cases n <;> decide
  · rw [toUpper_eq_self c h]

theorem toLower_toLower_eq (c : Char) : c.toLower.toLower = c.toLower := by
  by_cases h : c.toNat ≥ 65 ∧ c.toNat ≤ 90
  · obtain ⟨h1, h2⟩ := h
    rw [← Char.ofNat_toNat c]
    generalize hg : c.toNat = n
    rw [hg] at h1 h2
    interval_cases n <;> decide
  · rw [toLower_eq_self c h, toLower_eq_self c h]

theorem lowerStr_upperStr (s : String) : lowerStr (upperStr s) = lowerStr s := by
  simp only [lowerStr, upperStr, List.map_map]
  congr 1
  exact List.map_congr_left fun c _ => toLower_toUpper_eq c

theorem lowerStr_lowerStr (s : String) : lowerStr (lowerStr s) = lowerStr s := by
  simp only [lowerStr, List.map_map]
  congr 1
  exact List.map_congr_left fun c _ => toLower_toLower_eq c

end SelfImprove

namespace SelfImprove

/-! ### Quality-checker lemmas: congruence under case, redundant long
triggers, and the rubric-table formulation from the spec's data model -/

theorem quality_check_congr {r r' : String} (h : lowerStr r' = lowerStr r) :
    quality_check r' = quality_check r := by
  simp only [quality_check, h]

theorem or_eq_right {a b : Bool} (h : a = true → b = true) : (a || b) = b := by
  cases a
  · simp
  · simp [h rfl]

theorem or_eq_left {a b : Bool} (h : b = true → a = true) : (a || b) = a := by
  cases b
  · simp
  · simp [h rfl]

theorem item_top (s : String) :
    (strContains s "top 3 trends" || strContains s "top 3") = strContains s "top 3" :=
  or_eq_right fun h => strContains_trans (by decide) h

theorem item_comp (s : String) :
    (strContains s "competitor analysis" || strContains s "competitor") = strContains s "competitor" :=
  or_eq_right fun h => strContains_trans (by decide) h

theorem item_act (s : String) :
    (strContains s "actionable insight" || strContains s "actionable") = strContains s "actionable" :=
  or_eq_right fun h => strContains_trans (by decide) h

theorem item_src (s : String) :
    (strContains s "source" || strContains s "sources") = strContains s "source" :=
  or_eq_left fun h => strContains_trans (by decide) h

def quality_check_simple (response : String) : Bool × Checks :=
  let lower := lowerStr response
  let checks : Checks :=
    [("Top 3 trends", strContains lower "top 3"),
     ("Competitor analysis", strContains lower "competitor"),
     ("Actionable insight", strContains lower "actionable"),
     ("Sources", strContains lower "source")]
  let success := checks.all (fun kv => kv.2)
  (success, checks)

def rubricTriggers : List (String × List String) :=
  [("Top 3 trends", ["top 3 trends", "top 3"]),
   ("Competitor analysis", ["competitor analysis", "competitor"]),
   ("Actionable insight", ["actionable insight", "actionable"]),
   ("Sources", ["source", "sources"])]

def itemHit (r : String) (it : String × List String) : Bool :=
  it.2.any (fun ph => strContains (lowerStr r) ph)

def rubricEval (r : String) : Checks :=
  rubricTriggers.map (fun it => (it.1, itemHit r it))

def rubricFailed (r : String) : List String :=
  (rubricTriggers.filter (fun it => !itemHit r it)).map (fun it => it.1)

theorem rubricEval_eq (r : String) : (quality_check r).2 = rubricEval r := by
  simp [quality_check, rubricEval, rubricTriggers, itemHit]

theorem qc_success_eq_all (r : String) :
    (quality_check r).1 = (quality_check r).2.all (fun kv => kv.2) := rfl

theorem failed_generic (r : String) : ∀ xs : List (String × List String),
    ((xs.map (fun it => (it.1, itemHit r it))).filter (fun kv => !kv.2)).map (fun kv => kv.1)
      = (xs.filter (fun it => !itemHit r it)).map (fun it => it.1)
  | [] => rfl
  | x :: xs => by
    simp only [List.map_cons, List.filter_cons]
    cases hx : itemHit r x <;> simp [failed_generic r xs]

end SelfImprove

namespace SelfImprove

/-! ### Control-loop lemmas -/

theorem countGen_nil : countGen [] = 0 := rfl

theorem countRew_nil : countRew [] = 0 := rfl

theorem countGen_gen_cons (i : Nat) (pr : String) (tr : List CallEvent) :
    countGen (CallEvent.genCall i pr :: tr) = countGen tr + 1 := by
  simp [countGen, List.countP_cons, CallEvent.isGen]

theorem countGen_rew_cons (i : Nat) (pr r : String) (c : Checks) (tr : List CallEvent) :
    countGen (CallEvent.rewriteCall i pr r c :: tr) = countGen tr := by
  simp [countGen, List.countP_cons, CallEvent.isGen]

theorem countRew_gen_cons (i : Nat) (pr : String) (tr : List CallEvent) :
    countRew (CallEvent.genCall i pr :: tr) = countRew tr := by
  simp [countRew, List.countP_cons, CallEvent.isRew]

theorem countRew_rew_cons (i : Nat) (pr r : String) (c : Checks) (tr : List CallEvent) :
    countRew (CallEvent.rewriteCall i pr r c :: tr) = countRew tr + 1 := by
  simp [countRew, List.countP_cons, CallEvent.isRew]

theorem loopAux_zero_some (gen : GenOracle) (rew : RewOracle) (m i : Nat)
    (pr lr : String) (c : Checks) :
    loopAux gen rew m 0 i pr lr (some c) = (some ⟨lr, m, c⟩, []) := rfl

theorem loopAux_zero_none (gen : GenOracle) (rew : RewOracle) (m i : Nat)
    (pr lr : String) :
    loopAux gen rew m 0 i pr lr none = (none, []) := rfl

theorem loopAux_succ_ok (gen : GenOracle) (rew : RewOracle) (m fuel i : Nat)
    (pr lr : String) (lc : Option Checks)
    (h : (quality_check (gen i pr)).1 = true) :
    loopAux gen rew m (fuel + 1) i pr lr lc
      = (some ⟨gen i pr, i, (quality_check (gen i pr)).2⟩, [CallEvent.genCall i pr]) := by
  simp [loopAux, h]

theorem loopAux_succ_bad (gen : GenOracle) (rew : RewOracle) (m fuel i : Nat)
    (pr lr : String) (lc : Option Checks)
    (h : (quality_check (gen i pr)).1 = false) :
    loopAux gen rew m (fuel + 1) i pr lr lc
      = ((loopAux gen rew m fuel (i + 1) (rew i pr (gen i pr) (quality_check (gen i pr)).2)
            (gen i pr) (some (quality_check (gen i pr)).2)).1,
         CallEvent.genCall i pr ::
           CallEvent.rewriteCall i pr (gen i pr) (quality_check (gen i pr)).2 ::
             (loopAux gen rew m fuel (i + 1) (rew i pr (gen i pr) (quality_check (gen i pr)).2)
            (gen i pr) (some (quality_check (gen i pr)).2)).2) := by
  simp [loopAux, h]

theorem promptAt_one (gen : GenOracle) (rew : RewOracle) (p : String) :
    promptAt gen rew p 1 = p := rfl

theorem promptAt_succ (gen : GenOracle) (rew : RewOracle) (p : String) (k : Nat)
    (hk : 1 ≤ k) :
    promptAt gen rew p (k + 1)
      = rew k (promptAt gen rew p k) (respAt gen rew p k) (checksAt gen rew p k) := by
  have hk0 : ¬ k = 0 := by omega
  simp [promptAt, hk0, respAt, checksAt]

theorem loopAux_le (gen : GenOracle) (rew : RewOracle) (m : Nat) :
    ∀ fuel i pr lr lc,
      countGen (loopAux gen rew m fuel i pr lr lc).2 ≤ fuel ∧
      countRew (loopAux gen rew m fuel i pr lr lc).2 ≤ fuel := by
  intro fuel
  induction fuel with
  | zero =>
    intro i pr lr lc
    cases lc <;> simp [loopAux_zero_some, loopAux_zero_none, countGen_nil, countRew_nil]
  | succ f ih =>
    intro i pr lr lc
    by_cases h : (quality_check (gen i pr)).1 = true
    · rw [loopAux_succ_ok gen rew m f i pr lr lc h]
      simp [countGen_gen_cons, countRew_gen_cons, countGen_nil, countRew_nil]
    · rw [Bool.not_eq_true] at h
      rw [loopAux_succ_bad gen rew m f i pr lr lc h]
      have := ih (i + 1) (rew i pr (gen i pr) (quality_check (gen i pr)).2)
        (gen i pr) (some (quality_check (gen i pr)).2)
      simp only [countGen_gen_cons, countGen_rew_cons, countRew_gen_cons, countRew_rew_cons]
      omega

theorem loopAux_isSome_carry (gen : GenOracle) (rew : RewOracle) (m : Nat) :
    ∀ fuel i pr lr c,
      (loopAux gen rew m fuel i pr lr (some c)).1.isSome = true := by
  intro fuel
  induction fuel with
  | zero => intro i pr lr c; rw [loopAux_zero_some]; rfl
  | succ f ih =>
    intro i pr lr c
    by_cases h : (quality_check (gen i pr)).1 = true
    · rw [loopAux_succ_ok gen rew m f i pr lr (some c) h]; rfl
    · rw [Bool.not_eq_true] at h
      rw [loopAux_succ_bad gen rew m f i pr lr (some c) h]
      exact ih _ _ _ _

theorem loopAux_isSome (gen : GenOracle) (rew : RewOracle) (m fuel i : Nat)
    (pr lr : String) (lc : Option Checks) (hf : 1 ≤ fuel) :
    (loopAux gen rew m fuel i pr lr lc).1.isSome = true := by
  obtain ⟨f, rfl⟩ : ∃ f, fuel = f + 1 := ⟨fuel - 1, by omega⟩
  by_cases h : (quality_check (gen i pr)).1 = true
  · rw [loopAux_succ_ok gen rew m f i pr lr lc h]; rfl
  · rw [Bool.not_eq_true] at h
    rw [loopAux_succ_bad gen rew m f i pr lr lc h]
    exact loopAux_isSome_carry gen rew m f _ _ _ _

theorem okAt_eq (gen : GenOracle) (rew : RewOracle) (p : String) (k : Nat) :
    okAt gen rew p k = (quality_check (gen k (promptAt gen rew p k))).1 := rfl

theorem loopAux_hit (gen : GenOracle) (rew : RewOracle) (p : String) (m : Nat) :
    ∀ fuel i lr lc k, 1 ≤ i → i ≤ k → k < i + fuel →
      okAt gen rew p k = true →
      (∀ j, i ≤ j → j < k → okAt gen rew p j = false) →
      ∃ tr, loopAux gen rew m fuel i (promptAt gen rew p i) lr lc
          = (some ⟨respAt gen rew p k, k, checksAt gen rew p k⟩, tr)
          ∧ countGen tr = k + 1 - i ∧ countRew tr = k - i := by
  intro fuel
  induction fuel with
  | zero => intro i lr lc k _ _ hk _ _; omega
  | succ f ih =>
    intro i lr lc k hi hik hk hok hfail
    by_cases hki : k = i
    · subst hki
      have h : (quality_check (gen k (promptAt gen rew p k))).1 = true := hok
      refine ⟨[CallEvent.genCall k (promptAt gen rew p k)], ?_, ?_, ?_⟩
      · rw [loopAux_succ_ok gen rew m f k _ lr lc h]; rfl
      · simp [countGen_gen_cons, countGen_nil]
      · simp [countRew_gen_cons, countRew_nil]
    · have hlt : i < k := by omega
      have hoki : (quality_check (gen i (promptAt gen rew p i))).1 = false :=
        hfail i le_rfl hlt
      rw [loopAux_succ_bad gen rew m f i _ lr lc hoki]
      have hps : rew i (promptAt gen rew p i) (gen i (promptAt gen rew p i))
          (quality_check (gen i (promptAt gen rew p i))).2 = promptAt gen rew p (i + 1) :=
        (promptAt_succ gen rew p i hi).symm
      rw [hps]
      obtain ⟨tr, heq, hg, hr⟩ := ih (i + 1) (gen i (promptAt gen rew p i))
        (some (quality_check (gen i (promptAt gen rew p i))).2) k
        (by omega) (by omega) (by omega) hok
        (fun j hj1 hj2 => hfail j (by omega) hj2)
      refine ⟨CallEvent.genCall i (promptAt gen rew p i) ::
        CallEvent.rewriteCall i (promptAt gen rew p i) (gen i (promptAt gen rew p i))
          (quality_check (gen i (promptAt gen rew p i))).2 :: tr, ?_, ?_, ?_⟩
      · rw [heq]
      · rw [countGen_gen_cons, countGen_rew_cons, hg]; omega
      · rw [countRew_gen_cons, countRew_rew_cons, hr]; omega

theorem loopAux_exhaust (gen : GenOracle) (rew : RewOracle) (p : String) (m : Nat) :
    ∀ fuel i lr lc, 1 ≤ fuel → 1 ≤ i →
      (∀ j, i ≤ j → j < i + fuel → okAt gen rew p j = false) →
      ∃ tr, loopAux gen rew m fuel i (promptAt gen rew p i) lr lc
          = (some ⟨respAt gen rew p (i + fuel - 1), m, checksAt gen rew p (i + fuel - 1)⟩, tr)
          ∧ countGen tr = fuel ∧ countRew tr = fuel := by
  intro fuel
  induction fuel with
  | zero => intro i lr lc hf; omega
  | succ f ih =>
    intro i lr lc _ hi hfail
    have hoki : (quality_check (gen i (promptAt gen rew p i))).1 = false :=
      hfail i le_rfl (by omega)
    rw [loopAux_succ_bad gen rew m f i _ lr lc hoki]
    have hps : rew i (promptAt gen rew p i) (gen i (promptAt gen rew p i))
        (quality_check (gen i (promptAt gen rew p i))).2 = promptAt gen rew p (i + 1) :=
      (promptAt_succ gen rew p i hi).symm
    rw [hps]
    by_cases hf0 : f = 0
    · subst hf0
      refine ⟨[CallEvent.genCall i (promptAt gen rew p i),
        CallEvent.rewriteCall i (promptAt gen rew p i) (gen i (promptAt gen rew p i))
          (quality_check (gen i (promptAt gen rew p i))).2], ?_, ?_, ?_⟩
      · rw [loopAux_zero_some]
        have h1 : i + 1 - 1 = i := by omega
        rw [h1]
        rfl
      · simp [countGen_gen_cons, countGen_rew_cons, countGen_nil]
      · simp [countRew_gen_cons, countRew_rew_cons, countRew_nil]
    · obtain ⟨tr, heq, hg, hr⟩ := ih (i + 1) (gen i (promptAt gen rew p i))
        (some (quality_check (gen i (promptAt gen rew p i))).2)
        (by omega) (by omega)
        (fun j hj1 hj2 => hfail j (by omega) (by omega))
      refine ⟨CallEvent.genCall i (promptAt gen rew p i) ::
        CallEvent.rewriteCall i (promptAt gen rew p i) (gen i (promptAt gen rew p i))
          (quality_check (gen i (promptAt gen rew p i))).2 :: tr, ?_, ?_, ?_⟩
      · rw [heq]
        have h1 : i + 1 + f - 1 = i + (f + 1) - 1 := by omega
        rw [h1]
      · rw [countGen_gen_cons, countGen_rew_cons, hg]
      · rw [countRew_gen_cons, countRew_rew_cons, hr]

theorem loopAux_spec (gen : GenOracle) (rew : RewOracle) (m : Nat) :
    ∀ fuel i pr lr lc, i + fuel = m + 1 →
      (∀ c, lc = some c → c.all (fun kv => kv.2) = false) →
      ∀ o tr, loopAux gen rew m fuel i pr lr lc = (some o, tr) →
        (o.checks.all (fun kv => kv.2) = true ∧
          countGen tr + i = o.iterations + 1 ∧ countRew tr + 1 = countGen tr) ∨
        (o.checks.all (fun kv => kv.2) = false ∧
          countGen tr = fuel ∧ countRew tr = fuel ∧ o.iterations = m) := by
  intro fuel
  induction fuel with
  | zero =>
    intro i pr lr lc hm hlc o tr heq
    cases lc with
    | none => rw [loopAux_zero_none] at heq; exact absurd (congrArg Prod.fst heq) (by simp)
    | some c =>
      rw [loopAux_zero_some] at heq
      obtain ⟨h1, h2⟩ := Prod.mk.injEq .. ▸ heq
      cases h1
      right
      exact ⟨hlc c rfl, by rw [← h2]; rfl, by rw [← h2]; rfl, rfl⟩
  | succ f ih =>
    intro i pr lr lc hm hlc o tr heq
    by_cases h : (quality_check (gen i pr)).1 = true
    · rw [loopAux_succ_ok gen rew m f i pr lr lc h] at heq
      obtain ⟨h1, h2⟩ := Prod.mk.injEq .. ▸ heq
      cases h1
      left
      refine ⟨?_, ?_, ?_⟩
      · exact (qc_success_eq_all (gen i pr)) ▸ h
      · rw [← h2, countGen_gen_cons, countGen_nil]
        show 0 + 1 + i = i + 1
        omega
      · rw [← h2]
        simp [countRew_gen_cons, countRew_nil, countGen_gen_cons, countGen_nil]
    · rw [Bool.not_eq_true] at h
      rw [loopAux_succ_bad gen rew m f i pr lr lc h] at heq
      obtain ⟨h1, h2⟩ := Prod.mk.injEq .. ▸ heq
      have hall : (quality_check (gen i pr)).2.all (fun kv => kv.2) = false := by
        rw [← qc_success_eq_all]; exact h
      have := ih (i + 1) (rew i pr (gen i pr) (quality_check (gen i pr)).2)
        (gen i pr) (some (quality_check (gen i pr)).2) (by omega)
        (fun c hc => by cases Option.some.injEq .. ▸ hc; exact hall)
        o (loopAux gen rew m f (i + 1)
            (rew i pr (gen i pr) (quality_check (gen i pr)).2)
            (gen i pr) (some (quality_check (gen i pr)).2)).2
        (by rw [← h1])
      rcases this with ⟨ha, hb, hc⟩ | ⟨ha, hb, hc, hd⟩
      · left
        refine ⟨ha, ?_, ?_⟩
        · rw [← h2, countGen_gen_cons, countGen_rew_cons]; omega
        · rw [← h2, countRew_gen_cons, countRew_rew_cons, countGen_gen_cons, countGen_rew_cons]
          omega
      · right
        refine ⟨ha, ?_, ?_, hd⟩
        · rw [← h2, countGen_gen_cons, countGen_rew_cons]; omega
        · rw [← h2, countRew_gen_cons, countRew_rew_cons]; omega

end SelfImprove

namespace SelfImprove

/-! ### Theorems settling the specification claims -/

/-! ### Concrete oracles used by the witnesses -/

/-- Oracle whose responses never satisfy the rubric. -/
def genAllFail : GenOracle := fun _ _ => ""

/-- Oracle whose first response already satisfies all four rubric items. -/
def genFirstPass : GenOracle := fun _ _ => "top 3 competitor actionable source"

/-- Oracle that fails on iteration 1 and passes from iteration 2 on. -/
def genSecondPass : GenOracle :=
  fun i _ => if i = 1 then "" else "top 3 competitor actionable source"

/-- Rewrite oracle returning a fixed improved prompt. -/
def rewConst : RewOracle := fun _ _ _ _ => "improved prompt"

/-- C4: `quality_check` marks each of the four rubric items passed iff one of
its configured trigger phrases occurs (case-insensitively) in the response
(`rubricEval` is the spec's table formulation: item name paired with the
disjunction over its trigger phrases); the overall-success flag is the
conjunction of the four item results; and the failed-item set is exactly the
set of items all of whose phrases are absent (`rubricFailed`). -/
theorem quality_check_rubric_table (r : String) :
    quality_check r = ((rubricEval r).all (fun kv => kv.2), rubricEval r) ∧
    ((quality_check r).2.filter (fun kv => !kv.2)).map (fun kv => kv.1) = rubricFailed r ∧
    (quality_check r).1 = (quality_check r).2.all (fun kv => kv.2) := by
  refine ⟨?_, ?_, qc_success_eq_all r⟩
  · exact Prod.ext (by rw [qc_success_eq_all r, rubricEval_eq r]) (rubricEval_eq r)
  · rw [rubricEval_eq r, rubricEval, rubricFailed]
    exact failed_generic r rubricTriggers

/-- C8: `quality_check` is case-insensitive: any two responses with the same
lowercasing get identical results, uppercasing or lowercasing a response does
not change its result, and in particular `"TOP 3 TRENDS"` is evaluated like
`"top 3 trends"`. -/
theorem quality_check_case_insensitive :
    (∀ r r', lowerStr r' = lowerStr r → quality_check r' = quality_check r) ∧
    (∀ r, quality_check (upperStr r) = quality_check r) ∧
    (∀ r, quality_check (lowerStr r) = quality_check r) ∧
    quality_check "TOP 3 TRENDS" = quality_check "top 3 trends" :=
  ⟨fun _ _ h => quality_check_congr h,
   fun r => quality_check_congr (lowerStr_upperStr r),
   fun r => quality_check_congr (lowerStr_lowerStr r),
   by decide⟩

/-- C8 witness: the case-congruence applied at the concrete pair
`"TOP 3 TRENDS"` / `"top 3 trends"`. -/
theorem quality_check_case_insensitive_witness :
    lowerStr "TOP 3 TRENDS" = lowerStr "top 3 trends" ∧
    quality_check "TOP 3 TRENDS" = quality_check "top 3 trends" :=
  ⟨by decide, quality_check_case_insensitive.1 "top 3 trends" "TOP 3 TRENDS" (by decide)⟩

/-- C9: `quality_check` is extensionally equal to the simplified checker that
tests only the four short triggers (`"top 3"`, `"competitor"`,
`"actionable"`, `"source"`); each longer-phrase disjunct is redundant because
it contains the short trigger as a substring. -/
theorem quality_check_extensionally_simple (r : String) :
    quality_check r = quality_check_simple r := by
  simp only [quality_check, quality_check_simple, item_top, item_comp, item_act, item_src]

/-- C10: `self_improving_loop` returns a structured outcome only when
`max_iters ≥ 1`: at `max_iters = 0` (Python's `range(1, 0 + 1)` is empty, as
it is for any non-positive argument) the loop body never runs and the final
`return` reads the never-assigned local `checks`, raising
`UnboundLocalError` (modelled by `none`); for every `max_iters ≥ 1` an
outcome is returned. -/
theorem self_improving_loop_zero_iters_raises (gen : GenOracle) (rew : RewOracle)
    (p : String) :
    (self_improving_loop gen rew p 0).1 = none ∧
    ∀ m, 1 ≤ m → ∃ o, (self_improving_loop gen rew p m).1 = some o := by
  constructor
  · rfl
  · intro m hm
    exact Option.isSome_iff_exists.mp (loopAux_isSome gen rew m m 1 p "" none hm)

/-- C10 witness: at `max_iters = 0` the crash, at `max_iters = 1` an outcome. -/
theorem self_improving_loop_zero_iters_raises_witness :
    (self_improving_loop genAllFail rewConst "p" 0).1 = none ∧
    (1 ≤ 1 ∧ ∃ o, (self_improving_loop genAllFail rewConst "p" 1).1 = some o) :=
  ⟨(self_improving_loop_zero_iters_raises genAllFail rewConst "p").1,
   ⟨by decide, (self_improving_loop_zero_iters_raises genAllFail rewConst "p").2 1 (by decide)⟩⟩

/-- C5: when the response object lacks any recognizable content field, the
extraction logic of `task_llm_call_gradient` does not raise and returns the
textual stringification `str(resp)` (nonempty whenever `str(resp)` is, which
Python guarantees), and the extraction logic of
`meta_rewrite_prompt_gradient` likewise falls back to `str(resp).strip()`;
totality of `task_extract` and `meta_extract` is the no-raise guarantee. -/
theorem extract_fallback_on_malformed (resp : RawResp) :
    ((∀ c cs, resp.choices = some (c :: cs) → c.message_content = none ∧ c.text = none) →
      task_extract resp = resp.str_repr ∧ (resp.str_repr ≠ "" → task_extract resp ≠ "")) ∧
    ((∀ c cs, resp.choices = some (c :: cs) → c.message_content = none) →
      meta_extract resp = stripStr resp.str_repr) := by
  constructor
  · intro h
    have he : task_extract resp = resp.str_repr := by
      rcases hc : resp.choices with _ | (_ | ⟨c, cs⟩)
      · simp [task_extract, hc]
      · simp [task_extract, hc]
      · obtain ⟨h1, h2⟩ := h c cs hc
        simp [task_extract, hc, h1, h2]
    exact ⟨he, fun hne => by rw [he]; exact hne⟩
  · intro h
    rcases hc : resp.choices with _ | (_ | ⟨c, cs⟩)
    · simp [meta_extract, hc]
    · simp [meta_extract, hc]
    · simp [meta_extract, hc, h c cs hc]

/-- C5 witness: a response whose only choice has neither `message.content`
nor `text` degrades to the (nonempty) stringification on both call sites. -/
theorem extract_fallback_on_malformed_witness :
    (task_extract ⟨some [⟨none, none⟩], "<ChatCompletion>"⟩ = "<ChatCompletion>" ∧
      ("<ChatCompletion>" ≠ "" → task_extract ⟨some [⟨none, none⟩], "<ChatCompletion>"⟩ ≠ "")) ∧
    meta_extract ⟨some [⟨none, none⟩], "<ChatCompletion>"⟩ = stripStr "<ChatCompletion>" := by
  constructor
  · exact (extract_fallback_on_malformed ⟨some [⟨none, none⟩], "<ChatCompletion>"⟩).1
      (by intro c cs hc; cases hc; simp_all)
  · exact (extract_fallback_on_malformed ⟨some [⟨none, none⟩], "<ChatCompletion>"⟩).2
      (by intro c cs hc; cases hc; simp_all)

/-- C1 counterexample: with oracles on which every evaluation fails, a run
with the default `MAX_ITERS = 4` makes `2 × MAX_ITERS = 8` external calls
(the code calls the Prompt Rewriter even on the final failed iteration), so
the claimed bound `2 × MAX_ITERS − 1` is violated. -/
theorem call_budget_claim_counterexample :
    countGen (self_improving_loop genAllFail rewConst "p").2
        + countRew (self_improving_loop genAllFail rewConst "p").2 = 2 * MAX_ITERS ∧
    ¬(countGen (self_improving_loop genAllFail rewConst "p").2
        + countRew (self_improving_loop genAllFail rewConst "p").2 ≤ 2 * MAX_ITERS - 1) := by
  constructor
  · decide
  · decide

/-- C1 (amended): each iteration makes exactly one Inference Caller call
and, when the evaluator does not report success on it — including the final
iteration — exactly one Prompt Rewriter call; hence for a returned outcome
the generation-call count equals the iteration count and the rewrite-call
count is one less on success and equal on exhaustion, and the total number
of external calls is at most `2 × max_iters` (not `2 × MAX_ITERS − 1`). -/
theorem self_improving_loop_call_budget (gen : GenOracle) (rew : RewOracle)
    (p : String) (m : Nat) :
    countGen (self_improving_loop gen rew p m).2 ≤ m ∧
    countGen (self_improving_loop gen rew p m).2
      + countRew (self_improving_loop gen rew p m).2 ≤ 2 * m ∧
    ∀ o tr, self_improving_loop gen rew p m = (some o, tr) →
      countGen tr = o.iterations ∧
      countRew tr = (if o.checks.all (fun kv => kv.2) then o.iterations - 1 else o.iterations) := by
  refine ⟨(loopAux_le gen rew m m 1 p "" none).1, ?_, ?_⟩
  · have h := loopAux_le gen rew m m 1 p "" none
    show countGen (loopAux gen rew m m 1 p "" none).2
        + countRew (loopAux gen rew m m 1 p "" none).2 ≤ 2 * m
    omega
  · intro o tr heq
    have h := loopAux_spec gen rew m m 1 p "" none (by omega) (fun c hc => by cases hc) o tr heq
    rcases h with ⟨ha, hb, hc⟩ | ⟨ha, hb, hc, hd⟩
    · refine ⟨by omega, ?_⟩
      rw [ha, if_pos rfl]
      omega
    · refine ⟨by omega, ?_⟩
      rw [ha, if_neg (by simp)]
      omega

/-- C1 witness: a first-iteration success returns after one generation call
and zero rewrite calls. -/
theorem self_improving_loop_call_budget_witness :
    self_improving_loop genFirstPass rewConst "p" 1
        = (some ⟨"top 3 competitor actionable source", 1,
              (quality_check "top 3 competitor actionable source").2⟩,
           [CallEvent.genCall 1 "p"]) ∧
    countGen [CallEvent.genCall 1 "p"]
        = (⟨"top 3 competitor actionable source", 1,
              (quality_check "top 3 competitor actionable source").2⟩ : Outcome).iterations ∧
    countRew [CallEvent.genCall 1 "p"]
        = (if (⟨"top 3 competitor actionable source", 1,
                (quality_check "top 3 competitor actionable source").2⟩ : Outcome).checks.all
                (fun kv => kv.2)
           then (⟨"top 3 competitor actionable source", 1,
                (quality_check "top 3 competitor actionable source").2⟩ : Outcome).iterations - 1
           else (⟨"top 3 competitor actionable source", 1,
                (quality_check "top 3 competitor actionable source").2⟩ : Outcome).iterations) :=
  ⟨by decide,
   (self_improving_loop_call_budget genFirstPass rewConst "p" 1).2.2 _ _ (by decide)⟩

/-- C2: if the evaluator reports overall success at iteration `k ≤ max_iters`
of the run (it failed on every earlier iteration, so iteration `k` is
reached), the loop terminates at iteration `k`, returning that iteration's
response and checks with `iterations = k`, after `k` generation calls and
only `k − 1` rewrite calls — none for iteration `k` itself. -/
theorem self_improving_loop_success_stops (gen : GenOracle) (rew : RewOracle)
    (p : String) (m k : Nat) (hk1 : 1 ≤ k) (hkm : k ≤ m)
    (hok : okAt gen rew p k = true)
    (hfail : ∀ j, 1 ≤ j → j < k → okAt gen rew p j = false) :
    ∃ tr, self_improving_loop gen rew p m
        = (some ⟨respAt gen rew p k, k, checksAt gen rew p k⟩, tr)
        ∧ countGen tr = k ∧ countRew tr = k - 1 := by
  obtain ⟨tr, heq, hg, hr⟩ := loopAux_hit gen rew p m m 1 "" none k le_rfl hk1
    (by omega) hok (fun j hj1 hj2 => hfail j hj1 hj2)
  exact ⟨tr, heq, by omega, by omega⟩

/-- C2 witness: success at iteration 2 of a three-iteration budget. -/
theorem self_improving_loop_success_stops_witness :
    okAt genSecondPass rewConst "p" 2 = true ∧
    ∃ tr, self_improving_loop genSecondPass rewConst "p" 3
        = (some ⟨respAt genSecondPass rewConst "p" 2, 2, checksAt genSecondPass rewConst "p" 2⟩, tr)
        ∧ countGen tr = 2 ∧ countRew tr = 2 - 1 :=
  ⟨by decide,
   self_improving_loop_success_stops genSecondPass rewConst "p" 3 2 (by decide) (by decide)
     (by decide)
     (fun j h1 h2 => by
       have hj : j = 1 := by omega
       rw [hj]
       decide)⟩

/-- C3: if the evaluator never reports success within `max_iters ≥ 1`
iterations, the loop terminates normally (an outcome, not an error), with
`iterations` exactly `max_iters` and the response and checks of the final
generation (`respAt`/`checksAt` at `max_iters`, not an earlier index). -/
theorem self_improving_loop_exhausts_with_last (gen : GenOracle) (rew : RewOracle)
    (p : String) (m : Nat) (hm : 1 ≤ m)
    (hfail : ∀ j, 1 ≤ j → j ≤ m → okAt gen rew p j = false) :
    ∃ tr, self_improving_loop gen rew p m
        = (some ⟨respAt gen rew p m, m, checksAt gen rew p m⟩, tr)
        ∧ countGen tr = m ∧ countRew tr = m := by
  obtain ⟨tr, heq, hg, hr⟩ := loopAux_exhaust gen rew p m m 1 "" none hm le_rfl
    (fun j hj1 hj2 => hfail j hj1 (by omega))
  have h1 : 1 + m - 1 = m := by omega
  rw [h1] at heq
  exact ⟨tr, heq, hg, hr⟩

/-- C3 witness: an always-failing oracle with a budget of 2 returns the
second (final) generation's response and checks. -/
theorem self_improving_loop_exhausts_with_last_witness :
    (∀ j, 1 ≤ j → j ≤ 2 → okAt genAllFail rewConst "p" j = false) ∧
    ∃ tr, self_improving_loop genAllFail rewConst "p" 2
        = (some ⟨respAt genAllFail rewConst "p" 2, 2, checksAt genAllFail rewConst "p" 2⟩, tr)
        ∧ countGen tr = 2 ∧ countRew tr = 2 :=
  ⟨fun j h1 h2 => by
      match j, h1, h2 with
      | 1, _, _ => decide
      | 2, _, _ => decide,
   self_improving_loop_exhausts_with_last genAllFail rewConst "p" 2 (by decide)
     (fun j h1 h2 => by
       match j, h1, h2 with
       | 1, _, _ => decide
       | 2, _, _ => decide)⟩

/-- C6: for every initial prompt and every behaviour of the two oracles (in
particular every possible sequence of evaluator verdicts), the loop makes at
most `max_iters` generation calls — with the default budget, at most
`MAX_ITERS = 4`; termination for every input is witnessed by
`self_improving_loop` being a total function. -/
theorem self_improving_loop_bounded_calls (gen : GenOracle) (rew : RewOracle)
    (p : String) (m : Nat) :
    countGen (self_improving_loop gen rew p m).2 ≤ m ∧
    countGen (self_improving_loop gen rew p).2 ≤ MAX_ITERS ∧
    MAX_ITERS = 4 :=
  ⟨(loopAux_le gen rew m m 1 p "" none).1,
   (loopAux_le gen rew MAX_ITERS MAX_ITERS 1 p "" none).1,
   rfl⟩

/-- C7: every outcome of a run with `max_iters ≥ 1` lets the caller
distinguish a clean success from an exhausted-but-incomplete run: the
returned checks are exactly the quality checks of the returned response;
they are all true iff some reachable iteration passed (the success path);
at least one is false iff every iteration within the budget failed
(exhaustion), and then `iterations = max_iters`; the loop never reports
success it did not achieve. -/
theorem self_improving_loop_distinguishes (gen : GenOracle) (rew : RewOracle)
    (p : String) (m : Nat) (hm : 1 ≤ m) :
    ∃ o tr, self_improving_loop gen rew p m = (some o, tr) ∧
      o.checks = (quality_check o.response).2 ∧
      o.checks.all (fun kv => kv.2) = (quality_check o.response).1 ∧
      (o.checks.all (fun kv => kv.2) = true ↔ ∃ k, 1 ≤ k ∧ k ≤ m ∧ okAt gen rew p k = true) ∧
      (o.checks.all (fun kv => kv.2) = false ↔ ∀ k, 1 ≤ k → k ≤ m → okAt gen rew p k = false) ∧
      (o.checks.all (fun kv => kv.2) = false → o.iterations = m) := by
  by_cases hex : ∃ k, 1 ≤ k ∧ k ≤ m ∧ okAt gen rew p k = true
  · have hspec := Nat.find_spec hex
    have hk1 : 1 ≤ Nat.find hex := hspec.1
    have hkm : Nat.find hex ≤ m := hspec.2.1
    have hok : okAt gen rew p (Nat.find hex) = true := hspec.2.2
    have hfail : ∀ j, 1 ≤ j → j < Nat.find hex → okAt gen rew p j = false := by
      intro j hj1 hj2
      cases hb : okAt gen rew p j with
      | false => rfl
      | true => exact absurd ⟨hj1, by omega, hb⟩ (Nat.find_min hex hj2)
    obtain ⟨tr, heq, hg, hr⟩ := loopAux_hit gen rew p m m 1 "" none (Nat.find hex)
      le_rfl hk1 (by omega) hok hfail
    have hall : (checksAt gen rew p (Nat.find hex)).all (fun kv => kv.2) = true := by
      rw [checksAt, ← qc_success_eq_all]
      exact hok
    refine ⟨⟨respAt gen rew p (Nat.find hex), Nat.find hex, checksAt gen rew p (Nat.find hex)⟩,
      tr, heq, rfl, ?_, ?_, ?_, ?_⟩
    · show (checksAt gen rew p (Nat.find hex)).all (fun kv => kv.2)
        = (quality_check (respAt gen rew p (Nat.find hex))).1
      rw [checksAt]
      exact (qc_success_eq_all _).symm
    · exact iff_of_true hall hex
    · show (checksAt gen rew p (Nat.find hex)).all (fun kv => kv.2) = false ↔ _
      refine iff_of_false (by rw [hall]; simp) ?_
      intro hforall
      have := hforall (Nat.find hex) hk1 hkm
      rw [hok] at this
      exact absurd this (by simp)
    · show (checksAt gen rew p (Nat.find hex)).all (fun kv => kv.2) = false → _
      intro hfalse
      rw [hall] at hfalse
      exact absurd hfalse (by simp)
  · have hfall : ∀ k, 1 ≤ k → k ≤ m → okAt gen rew p k = false := by
      intro k h1 h2
      cases hb : okAt gen rew p k with
      | false => rfl
      | true => exact absurd ⟨k, h1, h2, hb⟩ hex
    obtain ⟨tr, heq, hg, hr⟩ := loopAux_exhaust gen rew p m m 1 "" none hm le_rfl
      (fun j hj1 hj2 => hfall j hj1 (by omega))
    have h1 : 1 + m - 1 = m := by omega
    rw [h1] at heq
    have hallf : (checksAt gen rew p m).all (fun kv => kv.2) = false := by
      rw [checksAt, ← qc_success_eq_all]
      exact hfall m hm le_rfl
    refine ⟨⟨respAt gen rew p m, m, checksAt gen rew p m⟩, tr, heq, rfl, ?_, ?_, ?_, ?_⟩
    · show (checksAt gen rew p m).all (fun kv => kv.2)
        = (quality_check (respAt gen rew p m)).1
      rw [checksAt]
      exact (qc_success_eq_all _).symm
    · show (checksAt gen rew p m).all (fun kv => kv.2) = true ↔ _
      exact iff_of_false (by rw [hallf]; simp) hex
    · exact iff_of_true hallf hfall
    · intro _
      rfl

/-- C7 witness: an always-failing oracle with budget 1 yields an outcome
whose checks distinguish exhaustion. -/
theorem self_improving_loop_distinguishes_witness :
    1 ≤ 1 ∧
    ∃ o tr, self_improving_loop genAllFail rewConst "p" 1 = (some o, tr) ∧
      o.checks = (quality_check o.response).2 ∧
      o.checks.all (fun kv => kv.2) = (quality_check o.response).1 ∧
      (o.checks.all (fun kv => kv.2) = true ↔
        ∃ k, 1 ≤ k ∧ k ≤ 1 ∧ okAt genAllFail rewConst "p" k = true) ∧
      (o.checks.all (fun kv => kv.2) = false ↔
        ∀ k, 1 ≤ k → k ≤ 1 → okAt genAllFail rewConst "p" k = false) ∧
      (o.checks.all (fun kv => kv.2) = false → o.iterations = 1) :=
  ⟨by decide, self_improving_loop_distinguishes genAllFail rewConst "p" 1 (by decide)⟩

end SelfImprove

